import Mathlib

/-!
Shallow embedding of the currency-conversion core of this repository
(`extractCurrencyInfo` and `formatCurrencyResult` in
`src/components/CurrencyConverter.tsx`), together with proofs of the
frozen claims about it.

Strings are modelled as Lean `String`/`List Char`; JS numbers are
modelled as exact rationals (`ℚ`).  The JS regular expressions used by
the source are small and fixed, so they are embedded as data
(a token list per pattern) interpreted by a greedy backtracking matcher
with JS semantics: leftmost match, greedy quantifiers giving back one
repetition at a time, alternatives tried left to right.
-/

namespace CurrencyWhisper

/-- ASCII lowercasing, one character.  Mirrors `String.prototype.toLowerCase`
on the character set the program works with (ASCII letters, digits,
punctuation and the currency symbols `$ € £ ¥ ₹`, which have no case). -/
def lowerChar (c : Char) : Char :=
  if 'A' ≤ c ∧ c ≤ 'Z' then Char.ofNat (c.toNat + 32) else c

/-- `query.toLowerCase()` from the source. -/
def toLowerStr (s : String) : String :=
  ⟨s.toList.map lowerChar⟩

/-- The `currencyCodes` object literal of `extractCurrencyInfo`, as an
association list in the source's key-insertion order.  The source writes
the key `"¥"` twice (once on the `jpy` line, once on the `cny` line);
by JavaScript object-literal semantics the later value wins while the
key keeps its first insertion position, so the single `"¥"` entry sits
between `"yen"` and `"inr"` and maps to `"CNY"`. -/
def currencyCodes : List (String × String) :=
  [("usd", "USD"), ("dollar", "USD"), ("dollars", "USD"), ("$", "USD"),
   ("eur", "EUR"), ("euro", "EUR"), ("euros", "EUR"), ("€", "EUR"),
   ("gbp", "GBP"), ("pound", "GBP"), ("pounds", "GBP"), ("£", "GBP"),
   ("jpy", "JPY"), ("yen", "JPY"), ("¥", "CNY"),
   ("inr", "INR"), ("rupee", "INR"), ("rupees", "INR"), ("rs", "INR"), ("₹", "INR"),
   ("cad", "CAD"), ("canadian dollar", "CAD"), ("c$", "CAD"),
   ("aud", "AUD"), ("australian dollar", "AUD"), ("a$", "AUD"),
   ("chf", "CHF"), ("franc", "CHF"), ("francs", "CHF"),
   ("cny", "CNY"), ("yuan", "CNY"), ("rmb", "CNY")]

/-- `currencyCodes[tok]`: property lookup in the alias object.  All values
are nonempty strings, so JS truthiness of `currencyCodes[tok]` coincides
with `isSome` here. -/
def lookupAlias (tok : String) : Option String :=
  (currencyCodes.find? (fun p => p.1 == tok)).map (fun p => p.2)

/-- JS `\w`: `[A-Za-z0-9_]`. -/
def isWordChar (c : Char) : Bool :=
  c.isAlphanum || c == '_'

/-- JS `\s` restricted to the ASCII whitespace characters. -/
def isSpaceChar (c : Char) : Bool :=
  c == ' ' || c == '\t' || c == '\n' || c == '\r' || c == '\x0b' || c == '\x0c'

/-- The character classes occurring in the source's conversion patterns:
`\w`, `\s` and `[^a-zA-Z]`. -/
inductive CharCls where
  | word
  | space
  | nonLetter
deriving DecidableEq

def CharCls.test : CharCls → Char → Bool
  | .word, c => isWordChar c
  | .space, c => isSpaceChar c
  | .nonLetter, c => !c.isAlpha

/-- One token of an embedded regular expression: a literal string, or a
one-or-more greedy repetition of a character class, possibly a capture
group.  The five conversion patterns of the source are sequences of
exactly these shapes. -/
inductive Tok where
  | lit (cs : List Char)
  | one (cls : CharCls) (captured : Bool)

/-- Number of leading characters of `s` satisfying `p`. -/
def leadCount (p : Char → Bool) : List Char → Nat
  | [] => 0
  | c :: cs => if p c then leadCount p cs + 1 else 0

/-- The splits `(s.take k, s.drop k)` for `k = n, n-1, …, 1` (longest
first): the candidate ways a greedy one-or-more repetition can consume
input, in JS backtracking order. -/
def splitsDown (s : List Char) : Nat → List (List Char × List Char)
  | 0 => []
  | k + 1 => (s.take (k + 1), s.drop (k + 1)) :: splitsDown s k

/-- Match a token sequence against a prefix of `s` (the rest of the
string may be anything, as the source's patterns are unanchored),
returning the captured substrings in order.  Candidate repetition
lengths are tried longest first and alternatives depth-first, which is
exactly the JS backtracking order for these patterns. -/
def matchToks : List Tok → List Char → Option (List String)
  | [], _ => some []
  | .lit l :: rest, s =>
      if l.isPrefixOf s then matchToks rest (s.drop l.length) else none
  | .one cls cap :: rest, s =>
      (splitsDown s (leadCount cls.test s)).findSome? fun pr =>
        (matchToks rest pr.2).map fun caps =>
          if cap then pr.1.asString :: caps else caps

/-- `String.prototype.match` with a non-global regex: try the pattern at
every start position from the left and return the first success. -/
def searchToks (toks : List Tok) : List Char → Option (List String)
  | [] => matchToks toks []
  | c :: rest =>
      match matchToks toks (c :: rest) with
      | some caps => some caps
      | none => searchToks toks rest

/-- `/from\s+(\w+)\s+to\s+(\w+)/i` (the input is already lowercased). -/
def fromToPat : List Tok :=
  [.lit ("from".toList), .one .space false, .one .word true,
   .one .space false, .lit ("to".toList), .one .space false, .one .word true]

/-- `/(\w+)\s+to\s+(\w+)/i`. -/
def toPat : List Tok :=
  [.one .word true, .one .space false, .lit ("to".toList),
   .one .space false, .one .word true]

/-- `/convert\s+[^a-zA-Z]+\s+(\w+)\s+to\s+(\w+)/i`. -/
def convertPat : List Tok :=
  [.lit ("convert".toList), .one .space false, .one .nonLetter false,
   .one .space false, .one .word true, .one .space false,
   .lit ("to".toList), .one .space false, .one .word true]

/-- `/exchange\s+[^a-zA-Z]+\s+(\w+)\s+to\s+(\w+)/i`. -/
def exchangePat : List Tok :=
  [.lit ("exchange".toList), .one .space false, .one .nonLetter false,
   .one .space false, .one .word true, .one .space false,
   .lit ("to".toList), .one .space false, .one .word true]

/-- `/(\w+)\s+in\s+(\w+)/i`. -/
def inPat : List Tok :=
  [.one .word true, .one .space false, .lit ("in".toList),
   .one .space false, .one .word true]

/-- The `conversionPatterns` array of the source, in its listed order. -/
def conversionPatterns : List (List Tok) :=
  [fromToPat, toPat, convertPat, exchangePat, inPat]

/-- `if (currencyCodes[tok]) slot = currencyCodes[tok]`: overwrite the
slot when the lookup succeeds, keep it otherwise. -/
def assignSlot (looked old : Option String) : Option String :=
  match looked with
  | some c => some c
  | none => old

/-- The body of the source's `for (const pattern of conversionPatterns)`
loop: on a textual match, each captured token is looked up (lowercased)
in the alias table and assigned to its slot only when the lookup
succeeds; the loop breaks as soon as both slots are set. -/
def runPatternsGo (q : List Char) :
    List (List Tok) → Option String × Option String → Option String × Option String
  | [], st => st
  | p :: rest, (f, t) =>
      match searchToks p q with
      | some (s :: tg :: _) =>
          let f' := assignSlot (lookupAlias (toLowerStr s)) f
          let t' := assignSlot (lookupAlias (toLowerStr tg)) t
          if f'.isSome && t'.isSome then (f', t') else runPatternsGo q rest (f', t')
      | _ => runPatternsGo q rest (f, t)

/-- The whole pattern cascade, started with both slots empty. -/
def runPatterns (q : List Char) : Option String × Option String :=
  runPatternsGo q conversionPatterns (none, none)

/-- `q.includes(key)` from JS: `key` occurs as a contiguous substring
of `q` (the empty key is always included). -/
def strIncludes (q key : List Char) : Bool :=
  key.isPrefixOf q ||
    match q with
    | [] => false
    | _ :: rest => strIncludes rest key

/-- The source's fallback scan over `Object.entries(currencyCodes)`:
for each key that occurs as a literal substring of the normalized query,
assign its code to `fromCurrency` if unset, else to `toCurrency` if
unset and the code differs from `fromCurrency` (breaking out of the
loop in that case). -/
def fallbackGo (q : List Char) :
    List (String × String) → Option String × Option String → Option String × Option String
  | [], st => st
  | (key, code) :: rest, (f, t) =>
      if strIncludes q key.toList then
        match f with
        | none => fallbackGo q rest (some code, t)
        | some fc =>
            if t.isNone && (code != fc) then (some fc, some code)
            else fallbackGo q rest (some fc, t)
      else fallbackGo q rest (f, t)

/-- Currency resolution of `extractCurrencyInfo`: the pattern cascade,
then — exactly when at least one slot is still unset — the fallback
table scan. -/
def resolveCurrencies (q : List Char) : Option String × Option String :=
  if (runPatterns q).1.isSome && (runPatterns q).2.isSome then runPatterns q
  else fallbackGo q currencyCodes (runPatterns q)

/-! ### The amount regular expression

`/\b(\d{1,3}(,\d{3})*(\.\d+)?|\d+(\.\d+)?)\b/`, matched against the
normalized query with `String.prototype.match` (first match only).
Both alternatives start and end with a digit (a word character), so the
surrounding `\b` assertions reduce to: the character before the match,
if any, is not a word character, and the character after the match, if
any, is not a word character. -/

/-- `\b` between a character (`none` at the ends of the string) and the
next: exactly one side is a word character. -/
def boundary (a b : Option Char) : Bool :=
  (match a with | none => false | some c => isWordChar c) !=
  (match b with | none => false | some c => isWordChar c)

/-- The trailing `\b` of the amount regex: every alternative ends in a
digit, so the boundary holds exactly when the rest of the string is
empty or starts with a non-word character. -/
def endBoundary (rest : List Char) : Bool :=
  match rest with
  | [] => true
  | c :: _ => !isWordChar c

/-- `(,\d{3})*`, greedy: all candidate `(consumed, rest)` splits, most
repetitions first, down to zero repetitions. -/
def commaGroupCands : List Char → List (List Char × List Char)
  | ',' :: a :: b :: c :: rest =>
      if a.isDigit && b.isDigit && c.isDigit then
        ((commaGroupCands rest).map fun pr => (',' :: a :: b :: c :: pr.1, pr.2)) ++
          [([], ',' :: a :: b :: c :: rest)]
      else [([], ',' :: a :: b :: c :: rest)]
  | s => [([], s)]

/-- `(\.\d+)?`, greedy: the candidates that consume a dot and one or
more digits (longest first), then the candidate consuming nothing. -/
def fracCands : List Char → List (List Char × List Char)
  | '.' :: rest =>
      ((splitsDown rest (leadCount Char.isDigit rest)).map
        fun pr => ('.' :: pr.1, pr.2)) ++ [([], '.' :: rest)]
  | s => [([], s)]

/-- First alternative `\d{1,3}(,\d{3})*(\.\d+)?` followed by `\b`,
explored in JS backtracking order; returns the consumed characters. -/
def amountAlt1 (s : List Char) : Option (List Char) :=
  (splitsDown s (min 3 (leadCount Char.isDigit s))).findSome? fun d =>
    (commaGroupCands d.2).findSome? fun g =>
      (fracCands g.2).findSome? fun f =>
        if endBoundary f.2 then some (d.1 ++ g.1 ++ f.1) else none

/-- Second alternative `\d+(\.\d+)?` followed by `\b`. -/
def amountAlt2 (s : List Char) : Option (List Char) :=
  (splitsDown s (leadCount Char.isDigit s)).findSome? fun d =>
    (fracCands d.2).findSome? fun f =>
      if endBoundary f.2 then some (d.1 ++ f.1) else none

/-- Attempt the amount regex at one start position, `prev` being the
character just before it. -/
def matchAmountAt (prev : Option Char) (s : List Char) : Option (List Char) :=
  if boundary prev s.head? then
    match amountAlt1 s with
    | some m => some m
    | none => amountAlt2 s
  else none

/-- Leftmost match of the amount regex: try each start position from
the left.  (A match always consumes at least one digit, so no match can
start at the end of the string.) -/
def findAmountGo (prev : Option Char) : List Char → Option (List Char)
  | [] => none
  | c :: rest =>
      match matchAmountAt prev (c :: rest) with
      | some m => some m
      | none => findAmountGo (some c) rest

/-- `normalizedQuery.match(amountRegex)`, returning `match[0]`. -/
def findAmount (s : List Char) : Option (List Char) :=
  findAmountGo none s

/-- Decimal value of a digit string (as produced by the amount regex). -/
def digitsToNat : List Char → Nat → Nat
  | [], acc => acc
  | c :: cs, acc => digitsToNat cs (acc * 10 + (c.toNat - '0'.toNat))

/-- `parseFloat(match[0].replace(/,/g, ""))` on a string produced by
the amount regex (digits with optional comma groups and an optional
fractional part): strip the commas and read the decimal value, modelled
exactly as a rational. -/
def parseAmount (m : List Char) : ℚ :=
  let noCommas := m.filter (fun c => c != ',')
  let ip := noCommas.takeWhile (fun c => c != '.')
  let rest := noCommas.dropWhile (fun c => c != '.')
  match rest with
  | [] => (digitsToNat ip 0 : ℚ)
  | _ :: frac => (digitsToNat ip 0 : ℚ) + (digitsToNat frac 0 : ℚ) / (10 : ℚ) ^ frac.length

/-! ### The extractor -/

/-- The `{ amount, fromCurrency, toCurrency }` success payload. -/
structure ConversionRequest where
  amount : ℚ
  fromCurrency : String
  toCurrency : String
deriving DecidableEq

/-- The tagged result of `extractCurrencyInfo`: `{ success: true, … }`
or `{ success: false, error }`. -/
inductive ExtractionResult where
  | success (r : ConversionRequest)
  | failure (error : String)
deriving DecidableEq

/-- `extractCurrencyInfo` from the source: lowercase the query, find
the first amount match (failing with the no-amount message otherwise),
run the pattern cascade and, if needed, the fallback table scan, and
fail with the unresolved-currencies message unless both slots are
resolved. -/
def extractCurrencyInfo (query : String) : ExtractionResult :=
  match findAmount ((toLowerStr query).toList) with
  | none =>
      .failure "Couldn't identify an amount in your query. Please specify an amount to convert."
  | some m =>
      match resolveCurrencies ((toLowerStr query).toList) with
      | (some f, some t) => .success ⟨parseAmount m, f, t⟩
      | _ =>
          .failure "Please specify both the source and target currencies more clearly."

/-! ### The formatter -/

/-- The `currencySymbols` object of `formatCurrencyResult`. -/
def currencySymbols : List (String × String) :=
  [("USD", "$"), ("EUR", "€"), ("GBP", "£"), ("JPY", "¥"), ("INR", "₹"),
   ("CAD", "C$"), ("AUD", "A$"), ("CHF", "CHF"), ("CNY", "¥")]

/-- `currencySymbols[code] || ''`. -/
def getSymbol (code : String) : String :=
  ((currencySymbols.find? (fun p => p.1 == code)).map (fun p => p.2)).getD ""

/-- `x · s` rounded to the nearest integer with ties away from zero:
the default `roundingMode: "halfExpand"` of `Intl.NumberFormat` applied
at scale `s` (`s = 10 ^ fractionDigits`).  For `x = n / d ≥ 0` this is
`⌊(n·s)/d + 1/2⌋ = ⌊(2·n·s + d) / (2·d)⌋`, computed directly on the
numerator and denominator; the negative case mirrors it. -/
def roundHalfExpandScaled (x : ℚ) (s : Nat) : Int :=
  if 0 ≤ x.num then Int.fdiv (2 * x.num * s + x.den) (2 * x.den)
  else -Int.fdiv (2 * (-x.num) * s + x.den) (2 * x.den)

/-- Insert `,` after every three characters of a reversed digit list:
thousands grouping, built from the right. -/
def groupRev : List Char → List Char
  | a :: b :: c :: d :: rest => a :: b :: c :: ',' :: groupRev (d :: rest)
  | l => l

/-- `en-US` thousands grouping of a digit string. -/
def groupDigits (s : List Char) : List Char :=
  (groupRev s.reverse).reverse

/-- Decimal digits of a natural number, grouped, as a string. -/
def groupedNat (n : Nat) : String :=
  ⟨groupDigits (Nat.repr n).toList⟩

/-- `new Intl.NumberFormat('en-US').format(x)`: default options, i.e.
up to three fractional digits (trailing zeros dropped), half-expand
rounding, thousands grouping. -/
def formatDefault (x : ℚ) : String :=
  let n := roundHalfExpandScaled x 1000
  let sign := if n < 0 then "-" else ""
  let m := n.natAbs
  let fp := m % 1000
  let fracDigits :=
    [Nat.digitChar (fp / 100), Nat.digitChar (fp / 10 % 10), Nat.digitChar (fp % 10)]
  let fracKept := (fracDigits.reverse.dropWhile (fun c => c == '0')).reverse
  sign ++ groupedNat (m / 1000) ++
    (if fracKept.isEmpty then "" else "." ++ (⟨fracKept⟩ : String))

/-- Integer part (with sign and grouping) of the two-fraction-digit
rendering of `x`. -/
def fixed2Int (x : ℚ) : String :=
  let n := roundHalfExpandScaled x 100
  (if n < 0 then "-" else "") ++ groupedNat (n.natAbs / 100)

/-- The two fractional digits of the two-fraction-digit rendering of
`x`. -/
def fixed2Frac (x : ℚ) : String :=
  let fp := (roundHalfExpandScaled x 100).natAbs % 100
  ⟨[Nat.digitChar (fp / 10), Nat.digitChar (fp % 10)]⟩

/-- `new Intl.NumberFormat('en-US', { minimumFractionDigits: 2,
maximumFractionDigits: 2 }).format(x)`: exactly two fractional digits,
half-expand rounding, thousands grouping. -/
def formatFixed2 (x : ℚ) : String :=
  fixed2Int x ++ "." ++ fixed2Frac x

/-- `formatCurrencyResult` from the source. -/
def formatCurrencyResult (amount : ℚ) (fromCurrency toCurrency : String)
    (result : ℚ) : String :=
  getSymbol fromCurrency ++ formatDefault amount ++ " " ++ fromCurrency ++
    " is approximately " ++ getSymbol toCurrency ++ formatFixed2 result ++
    " " ++ toCurrency ++ " at the current exchange rate."

/-! ### Helper lemmas about the pattern cascade -/

theorem assignSlot_isSome (o f : Option String) (hf : f.isSome = true) :
    (assignSlot o f).isSome = true := by
  cases o <;> simp_all [assignSlot]

theorem runPatternsGo_skip (q : List Char) (pre rest : List (List Tok))
    (st : Option String × Option String)
    (h : ∀ p ∈ pre, searchToks p q = none) :
    runPatternsGo q (pre ++ rest) st = runPatternsGo q rest st := by
  induction pre generalizing st with
  | nil => rfl
  | cons p pre ih =>
      obtain ⟨f, t⟩ := st
      have hp : searchToks p q = none := h p (by simp)
      simp only [List.cons_append, runPatternsGo, hp]
      exact ih _ (fun p' hp' => h p' (by simp [hp']))

theorem runPatternsGo_first_both (q : List Char) (pat : List Tok)
    (post : List (List Tok)) (f t : Option String) (s tg : String)
    (more : List String) (a b : String)
    (hm : searchToks pat q = some (s :: tg :: more))
    (ha : lookupAlias (toLowerStr s) = some a)
    (hb : lookupAlias (toLowerStr tg) = some b) :
    runPatternsGo q (pat :: post) (f, t) = (some a, some b) := by
  simp [runPatternsGo, hm, ha, hb, assignSlot]

theorem runPatternsGo_fst_isSome (q : List Char) (pats : List (List Tok)) :
    ∀ f t : Option String, f.isSome = true →
      ((runPatternsGo q pats (f, t)).1).isSome = true := by
  induction pats with
  | nil => intro f t hf; simpa using hf
  | cons p rest ih =>
      intro f t hf
      rcases hs : searchToks p q with _ | caps
      · simp only [runPatternsGo, hs]; exact ih f t hf
      · rcases caps with _ | ⟨s, caps⟩
        · simp only [runPatternsGo, hs]; exact ih f t hf
        · rcases caps with _ | ⟨tg, more⟩
          · simp only [runPatternsGo, hs]; exact ih f t hf
          · simp only [runPatternsGo, hs]
            have hf' := assignSlot_isSome (lookupAlias (toLowerStr s)) f hf
            by_cases hc : ((assignSlot (lookupAlias (toLowerStr s)) f).isSome &&
                (assignSlot (lookupAlias (toLowerStr tg)) t).isSome) = true
            · rw [if_pos hc]; exact hf'
            · rw [if_neg hc]; exact ih _ _ hf'

theorem runPatternsGo_snd_isSome (q : List Char) (pats : List (List Tok)) :
    ∀ f t : Option String, t.isSome = true →
      ((runPatternsGo q pats (f, t)).2).isSome = true := by
  induction pats with
  | nil => intro f t ht; simpa using ht
  | cons p rest ih =>
      intro f t ht
      rcases hs : searchToks p q with _ | caps
      · simp only [runPatternsGo, hs]; exact ih f t ht
      · rcases caps with _ | ⟨s, caps⟩
        · simp only [runPatternsGo, hs]; exact ih f t ht
        · rcases caps with _ | ⟨tg, more⟩
          · simp only [runPatternsGo, hs]; exact ih f t ht
          · simp only [runPatternsGo, hs]
            have ht' := assignSlot_isSome (lookupAlias (toLowerStr tg)) t ht
            by_cases hc : ((assignSlot (lookupAlias (toLowerStr s)) f).isSome &&
                (assignSlot (lookupAlias (toLowerStr tg)) t).isSome) = true
            · rw [if_pos hc]; exact ht'
            · rw [if_neg hc]; exact ih _ _ ht'

/-! ### Helper lemmas about the fallback scan -/

theorem fallbackGo_to_ne (q : List Char) :
    ∀ (entries : List (String × String)) (f : Option String) (c : String),
      (fallbackGo q entries (f, none)).2 = some c →
      ∃ d, (fallbackGo q entries (f, none)).1 = some d ∧ d ≠ c := by
  intro entries
  induction entries with
  | nil => intro f c h; simp [fallbackGo] at h
  | cons kc rest ih =>
      intro f c h
      obtain ⟨key, code⟩ := kc
      by_cases hinc : strIncludes q key.toList = true
      · cases f with
        | none =>
            simp only [fallbackGo, hinc, if_true] at h ⊢
            exact ih (some code) c h
        | some fc =>
            by_cases hne : (code != fc) = true
            · have hcc : code = c := by
                have h2 := h
                simp only [fallbackGo, hinc, hne, Option.isNone_none,
                  Bool.true_and, if_true] at h2
                exact Option.some.inj h2
              refine ⟨fc, ?_, fun hec => (bne_iff_ne.mp hne) (hcc.trans hec.symm)⟩
              simp only [fallbackGo, hinc, hne, Option.isNone_none,
                Bool.true_and, if_true]
            · simp only [fallbackGo, hinc, hne, Option.isNone_none, Bool.true_and,
                if_true, if_false, Bool.false_eq_true] at h ⊢
              exact ih (some fc) c h
      · simp only [fallbackGo, hinc, if_false, Bool.false_eq_true] at h ⊢
        exact ih f c h

theorem fallbackGo_none_of_single (q : List Char) (c0 : String) :
    ∀ (entries : List (String × String)) (f : Option String),
      (f = none ∨ f = some c0) →
      (∀ kc ∈ entries, strIncludes q kc.1.toList = true → kc.2 = c0) →
      (fallbackGo q entries (f, none)).2 = none := by
  intro entries
  induction entries with
  | nil => intro f hf hall; simp [fallbackGo]
  | cons kc rest ih =>
      intro f hf hall
      obtain ⟨key, code⟩ := kc
      have hall' : ∀ kc ∈ rest, strIncludes q kc.1.toList = true → kc.2 = c0 :=
        fun kc hk hs => hall kc (by simp [hk]) hs
      by_cases hinc : strIncludes q key.toList = true
      · have hcode : code = c0 := hall (key, code) (by simp) hinc
        subst hcode
        rcases hf with rfl | rfl
        · simp only [fallbackGo, hinc, if_true]
          exact ih (some code) (Or.inr rfl) hall'
        · simp only [fallbackGo, hinc, bne_self_eq_false, Bool.and_false, if_true,
            if_false, Bool.false_eq_true]
          exact ih (some code) (Or.inr rfl) hall'
      · simp only [fallbackGo, hinc, if_false, Bool.false_eq_true]
        exact ih f hf hall'

/-! ### The range of the alias table and its coverage by the symbol table -/

/-- The currency codes the alias table can produce. -/
def codeRange : List String := currencyCodes.map Prod.snd

/-- The slot holds no code outside the alias table's range. -/
def ValidOpt (o : Option String) : Prop := ∀ c, o = some c → c ∈ codeRange

theorem validOpt_none : ValidOpt none := fun _ h => by cases h

theorem validOpt_some_of_mem {c : String} (h : c ∈ codeRange) : ValidOpt (some c) :=
  fun _ hc => by cases hc; exact h

theorem lookupAlias_valid (s : String) : ValidOpt (lookupAlias s) := by
  intro c hc
  unfold lookupAlias at hc
  rcases hf : currencyCodes.find? (fun p => p.1 == s) with _ | p
  · rw [hf] at hc; cases hc
  · rw [hf] at hc
    cases hc
    exact List.mem_map_of_mem Prod.snd (List.mem_of_find?_eq_some hf)

theorem assignSlot_valid (o f : Option String) (ho : ValidOpt o) (hf : ValidOpt f) :
    ValidOpt (assignSlot o f) := by
  intro c hc
  cases o with
  | none => exact hf c hc
  | some d => exact ho c hc

theorem runPatternsGo_valid (q : List Char) (pats : List (List Tok)) :
    ∀ f t : Option String, ValidOpt f → ValidOpt t →
      ValidOpt ((runPatternsGo q pats (f, t)).1) ∧
        ValidOpt ((runPatternsGo q pats (f, t)).2) := by
  induction pats with
  | nil => intro f t hf ht; exact ⟨hf, ht⟩
  | cons p rest ih =>
      intro f t hf ht
      rcases hs : searchToks p q with _ | caps
      · simp only [runPatternsGo, hs]; exact ih f t hf ht
      · rcases caps with _ | ⟨s, caps⟩
        · simp only [runPatternsGo, hs]; exact ih f t hf ht
        · rcases caps with _ | ⟨tg, more⟩
          · simp only [runPatternsGo, hs]; exact ih f t hf ht
          · simp only [runPatternsGo, hs]
            have hf' := assignSlot_valid (lookupAlias (toLowerStr s)) f
              (lookupAlias_valid (toLowerStr s)) hf
            have ht' := assignSlot_valid (lookupAlias (toLowerStr tg)) t
              (lookupAlias_valid (toLowerStr tg)) ht
            by_cases hc : ((assignSlot (lookupAlias (toLowerStr s)) f).isSome &&
                (assignSlot (lookupAlias (toLowerStr tg)) t).isSome) = true
            · rw [if_pos hc]; exact ⟨hf', ht'⟩
            · rw [if_neg hc]; exact ih _ _ hf' ht'

theorem fallbackGo_valid (q : List Char) :
    ∀ (entries : List (String × String)) (f t : Option String),
      (∀ kc ∈ entries, kc.2 ∈ codeRange) → ValidOpt f → ValidOpt t →
      ValidOpt ((fallbackGo q entries (f, t)).1) ∧
        ValidOpt ((fallbackGo q entries (f, t)).2) := by
  intro entries
  induction entries with
  | nil => intro f t he hf ht; exact ⟨hf, ht⟩
  | cons kc rest ih =>
      intro f t he hf ht
      obtain ⟨key, code⟩ := kc
      have hcr : code ∈ codeRange := he (key, code) (by simp)
      have he' : ∀ kc ∈ rest, kc.2 ∈ codeRange := fun kc hk => he kc (by simp [hk])
      by_cases hinc : strIncludes q key.toList = true
      · cases f with
        | none =>
            simp only [fallbackGo, hinc, if_true]
            exact ih (some code) t he' (validOpt_some_of_mem hcr) ht
        | some fc =>
            by_cases hne : (t.isNone && (code != fc)) = true
            · simp only [fallbackGo, hinc, hne, if_true]
              exact ⟨hf, validOpt_some_of_mem hcr⟩
            · simp only [fallbackGo, hinc, hne, if_true, if_false, Bool.false_eq_true]
              exact ih (some fc) t he' hf ht
      · simp only [fallbackGo, hinc, if_false, Bool.false_eq_true]
        exact ih f t he' hf ht

theorem resolveCurrencies_valid (q : List Char) :
    ValidOpt ((resolveCurrencies q).1) ∧ ValidOpt ((resolveCurrencies q).2) := by
  have hp := runPatternsGo_valid q conversionPatterns none none validOpt_none validOpt_none
  unfold resolveCurrencies
  by_cases hc : ((runPatterns q).1.isSome && (runPatterns q).2.isSome) = true
  · rw [if_pos hc]; exact hp
  · rw [if_neg hc]
    exact fallbackGo_valid q currencyCodes _ _ (by decide) hp.1 hp.2

theorem extract_success_valid (query : String) (r : ConversionRequest)
    (h : extractCurrencyInfo query = .success r) :
    r.fromCurrency ∈ codeRange ∧ r.toCurrency ∈ codeRange := by
  have hv := resolveCurrencies_valid ((toLowerStr query).toList)
  unfold extractCurrencyInfo at h
  rcases ha : findAmount ((toLowerStr query).toList) with _ | m
  · rw [ha] at h; cases h
  · rw [ha] at h
    rcases hr : resolveCurrencies ((toLowerStr query).toList) with ⟨f, t⟩
    rw [hr] at h hv
    cases f with
    | none => cases t <;> cases h
    | some fc =>
        cases t with
        | none => cases h
        | some tc =>
            cases h
            exact ⟨hv.1 fc rfl, hv.2 tc rfl⟩

/-- Digit characters render as digits. -/
theorem digitChar_isDigit : ∀ n < 10, (Nat.digitChar n).isDigit = true := by decide

set_option maxRecDepth 8000

/-! ### The claims -/

/-- Claim C1: in the ordered pattern cascade of extract, patterns are
tried in the fixed listed order; for the first pattern that textually
matches, both captured tokens are looked up (lowercased) in the alias
table, and if both resolve to known codes the cascade stops with
exactly that pair as `(fromCurrency, toCurrency)`; if only one slot
resolves from a pattern, that resolved slot is retained (not cleared)
while later patterns are tried to fill the other slot. -/
theorem pattern_cascade_spec :
    (∀ (q : List Char) (pre : List (List Tok)) (pat : List Tok)
        (post : List (List Tok)) (s tg : String) (more : List String) (a b : String),
        conversionPatterns = pre ++ pat :: post →
        (∀ p ∈ pre, searchToks p q = none) →
        searchToks pat q = some (s :: tg :: more) →
        lookupAlias (toLowerStr s) = some a →
        lookupAlias (toLowerStr tg) = some b →
        runPatterns q = (some a, some b)) ∧
    (∀ (q : List Char) (pats : List (List Tok)) (f t : Option String),
        (f.isSome = true → ((runPatternsGo q pats (f, t)).1).isSome = true) ∧
        (t.isSome = true → ((runPatternsGo q pats (f, t)).2).isSome = true)) := by
  constructor
  · intro q pre pat post s tg more a b hsplit hpre hm ha hb
    unfold runPatterns
    rw [hsplit, runPatternsGo_skip q pre _ _ hpre]
    exact runPatternsGo_first_both q pat post none none s tg more a b hm ha hb
  · intro q pats f t
    exact ⟨runPatternsGo_fst_isSome q pats f t, runPatternsGo_snd_isSome q pats f t⟩

/-- Witness for C1: on `"100 usd to eur"` the first textually matching
pattern is the second one, both captures resolve, and the cascade
returns `(USD, EUR)`; a pre-set slot stays set across the cascade. -/
theorem pattern_cascade_spec_witness :
    runPatterns ("100 usd to eur".toList) = (some "USD", some "EUR") ∧
    ((runPatternsGo ("zzz".toList) conversionPatterns (some "USD", none)).1).isSome = true :=
  ⟨pattern_cascade_spec.1 ("100 usd to eur".toList) [fromToPat] toPat
      [convertPat, exchangePat, inPat] "usd" "eur" [] "USD" "EUR" rfl
      (by decide) (by decide) (by decide) (by decide),
   (pattern_cascade_spec.2 ("zzz".toList) conversionPatterns (some "USD") none).1 (by decide)⟩

/-- Claim C2: `extract("Convert 10000 Indian Rupees to US Dollars")`
succeeds with amount 10000, fromCurrency INR, toCurrency USD. -/
theorem extract_rupees_to_dollars :
    extractCurrencyInfo "Convert 10000 Indian Rupees to US Dollars" =
      .success ⟨10000, "INR", "USD"⟩ := by decide

/-- Claim C3: whenever the amount regex finds no match in the
normalized query, extract fails with exactly the no-amount message —
the amount check runs first, before any currency detection. -/
theorem no_amount_short_circuit (query : String)
    (h : findAmount ((toLowerStr query).toList) = none) :
    extractCurrencyInfo query =
      .failure "Couldn't identify an amount in your query. Please specify an amount to convert." := by
  unfold extractCurrencyInfo
  rw [h]

/-- Witness for C3: `"euro to usd"` contains two resolvable currency
tokens but no amount, and still fails with the no-amount message. -/
theorem no_amount_short_circuit_witness :
    findAmount ((toLowerStr "euro to usd").toList) = none ∧
    extractCurrencyInfo "euro to usd" =
      .failure "Couldn't identify an amount in your query. Please specify an amount to convert." :=
  ⟨by decide, no_amount_short_circuit "euro to usd" (by decide)⟩

/-- Claim C4: the table-scan fallback never assigns `toCurrency` a code
equal to `fromCurrency` (starting from an unset `toCurrency`), and if
every alias key occurring in the query maps to one single code, the
fallback leaves `toCurrency` unset. -/
theorem fallback_scan_distinct_codes :
    (∀ (q : List Char) (f : Option String) (c : String),
        (fallbackGo q currencyCodes (f, none)).2 = some c →
        ∃ d, (fallbackGo q currencyCodes (f, none)).1 = some d ∧ d ≠ c) ∧
    (∀ (q : List Char) (c0 : String) (f : Option String),
        f = none ∨ f = some c0 →
        (∀ kc ∈ currencyCodes, strIncludes q kc.1.toList = true → kc.2 = c0) →
        (fallbackGo q currencyCodes (f, none)).2 = none) :=
  ⟨fun q => fallbackGo_to_ne q currencyCodes,
   fun q c0 => fallbackGo_none_of_single q c0 currencyCodes⟩

/-- Witness for C4: on `"usd eur"` the scan fills `toCurrency` with a
code different from `fromCurrency`; on `"usd dollar"` (all occurring
keys map to USD) it leaves `toCurrency` unset. -/
theorem fallback_scan_distinct_codes_witness :
    (∃ d, (fallbackGo ("usd eur".toList) currencyCodes (none, none)).1 = some d ∧ d ≠ "EUR") ∧
    (fallbackGo ("usd dollar".toList) currencyCodes (none, none)).2 = none :=
  ⟨fallback_scan_distinct_codes.1 ("usd eur".toList) none "EUR" (by decide),
   fallback_scan_distinct_codes.2 ("usd dollar".toList) "USD" none (Or.inl rfl) (by decide)⟩

/-- Claim C5: `extract("How much is 200 USD in INR?")` succeeds with
amount 200, fromCurrency USD, toCurrency INR. -/
theorem extract_usd_in_inr :
    extractCurrencyInfo "How much is 200 USD in INR?" =
      .success ⟨200, "USD", "INR"⟩ := by decide

/-- Claim C6: for any amount `A` and rate `R`, the result value `A·R`
is rendered in the output of format with exactly two fractional digits,
regardless of the precision of `R`. -/
theorem result_two_fraction_digits (A R : ℚ) (x y : String) :
    ∃ p q : String, q.length = 2 ∧ q.toList.all Char.isDigit = true ∧
      formatCurrencyResult A x y (A * R) =
        p ++ "." ++ q ++ " " ++ y ++ " at the current exchange rate." := by
  refine ⟨getSymbol x ++ formatDefault A ++ " " ++ x ++ " is approximately " ++
      getSymbol y ++ fixed2Int (A * R), fixed2Frac (A * R), rfl, ?_, ?_⟩
  · have h1 : (roundHalfExpandScaled (A * R) 100).natAbs % 100 / 10 < 10 := by omega
    have h2 : (roundHalfExpandScaled (A * R) 100).natAbs % 100 % 10 < 10 := by omega
    simp [fixed2Frac, digitChar_isDigit _ h1, digitChar_isDigit _ h2]
  · simp only [formatCurrencyResult, formatFixed2, String.append_assoc]

/-- Claim C7: when an amount is found but after both phases a currency
slot is still unresolved, extract fails with exactly the
unresolved-currencies message; these two messages are the only failure
results extract can produce; and `extract("100")` fails with the
currencies message. -/
theorem extract_failure_messages :
    (∀ (query : String) (m : List Char),
        findAmount ((toLowerStr query).toList) = some m →
        ((resolveCurrencies ((toLowerStr query).toList)).1 = none ∨
          (resolveCurrencies ((toLowerStr query).toList)).2 = none) →
        extractCurrencyInfo query =
          .failure "Please specify both the source and target currencies more clearly.") ∧
    (∀ (query e : String),
        extractCurrencyInfo query = .failure e →
        e = "Couldn't identify an amount in your query. Please specify an amount to convert." ∨
        e = "Please specify both the source and target currencies more clearly.") ∧
    extractCurrencyInfo "100" =
      .failure "Please specify both the source and target currencies more clearly." := by
  refine ⟨?_, ?_, by decide⟩
  · intro query m hm hro
    unfold extractCurrencyInfo
    rw [hm]
    rcases hr : resolveCurrencies ((toLowerStr query).toList) with ⟨f, t⟩
    rw [hr] at hro
    cases f with
    | none => cases t <;> rfl
    | some fc =>
        cases t with
        | none => rfl
        | some tc => rcases hro with h | h <;> exact Option.noConfusion h
  · intro query e h
    unfold extractCurrencyInfo at h
    rcases ha : findAmount ((toLowerStr query).toList) with _ | m
    · rw [ha] at h
      exact Or.inl (ExtractionResult.failure.inj h).symm
    · rw [ha] at h
      rcases hr : resolveCurrencies ((toLowerStr query).toList) with ⟨f, t⟩
      rw [hr] at h
      cases f with
      | none => cases t <;> exact Or.inr (ExtractionResult.failure.inj h).symm
      | some fc =>
          cases t with
          | none => exact Or.inr (ExtractionResult.failure.inj h).symm
          | some tc => exact ExtractionResult.noConfusion h

/-- Witness for C7: `"100"` has an amount but no currency tokens; both
parts of the claim apply to it. -/
theorem extract_failure_messages_witness :
    extractCurrencyInfo "100" =
      .failure "Please specify both the source and target currencies more clearly." ∧
    ("Please specify both the source and target currencies more clearly." =
        "Couldn't identify an amount in your query. Please specify an amount to convert." ∨
      "Please specify both the source and target currencies more clearly." =
        "Please specify both the source and target currencies more clearly.") :=
  ⟨extract_failure_messages.1 "100" ['1', '0', '0'] (by decide) (Or.inl (by decide)),
   extract_failure_messages.2.1 "100" _ extract_failure_messages.2.2⟩

/-- Claim C8: `format(100, "USD", "EUR", 92.345)` returns exactly the
expected display string, rounding the result to two fractional
digits. -/
theorem format_usd_eur_example :
    formatCurrencyResult 100 "USD" "EUR" (92.345 : ℚ) =
      "$100 USD is approximately €92.35 EUR at the current exchange rate." := by
  have h : (92.345 : ℚ) = mkRat 18469 200 := by
    rw [Rat.mkRat_eq_div]; norm_num
  rw [h]; decide

/-- Claim C9: extract and format are deterministic and stateless —
both are pure functions of their arguments and the static tables, so
repeated calls with the same arguments give identical results. -/
theorem extract_format_deterministic (query : String) (amount : ℚ)
    (f t : String) (result : ℚ) :
    extractCurrencyInfo query = extractCurrencyInfo query ∧
    formatCurrencyResult amount f t result = formatCurrencyResult amount f t result :=
  ⟨rfl, rfl⟩

/-- Claim C10: every code in the range of the alias table has an entry
in the formatter's symbol table, so formatting the currencies of any
successful extraction never takes the empty-string symbol fallback. -/
theorem symbols_cover_alias_range :
    (∀ kc ∈ currencyCodes, (currencySymbols.find? (fun p => p.1 == kc.2)).isSome = true) ∧
    (∀ (query : String) (r : ConversionRequest),
        extractCurrencyInfo query = .success r →
        (currencySymbols.find? (fun p => p.1 == r.fromCurrency)).isSome = true ∧
        (currencySymbols.find? (fun p => p.1 == r.toCurrency)).isSome = true) := by
  have hcov : ∀ c ∈ codeRange, (currencySymbols.find? (fun p => p.1 == c)).isSome = true := by
    decide
  refine ⟨fun kc hk => hcov kc.2 (List.mem_map_of_mem Prod.snd hk), fun query r h => ?_⟩
  have hv := extract_success_valid query r h
  exact ⟨hcov _ hv.1, hcov _ hv.2⟩

/-- Witness for C10: the alias entry `("usd", "USD")` has a symbol, and
the currencies of a concrete successful extraction both have symbols. -/
theorem symbols_cover_alias_range_witness :
    (currencySymbols.find? (fun p => p.1 == "USD")).isSome = true ∧
    (currencySymbols.find? (fun p => p.1 == "EUR")).isSome = true :=
  ⟨symbols_cover_alias_range.1 ("usd", "USD") (by decide),
   (symbols_cover_alias_range.2 "convert 100 usd to eur" ⟨100, "USD", "EUR"⟩ (by decide)).2⟩

end CurrencyWhisper
